import Mathlib

/-!
Verification development for the face-recognition attendance application.

The embeddings below are shallow translations of the application's core
functions:

* `euclideanDistance` and `findBestMatch` from `src/lib/faceApi.ts`
  (lines 48-76).  Embedding coordinates are modelled as exact rationals;
  the square root is the exact real square root, so `euclideanDistance`
  lands in `ℝ`.
* `markAttendance`, `attendanceStatus` and the recognition-loop guard
  from the `LiveAttendance` page (`detectAndMatch` / `markAttendance`).
  Wall-clock time is modelled as milliseconds since local midnight; the
  09:00 cutoff built by `setHours(9, 0, 0, 0)` is `workStartMs`.
* `handleSubmit` and `REQUIRED_CAPTURES` from `FaceRegistration.tsx`,
  with the external employee store and the face-encoding store modelled
  as explicit parameters and an effect trace.
-/

/-- `euclideanDistance` from `faceApi.ts` first accumulates
`sum += Math.pow(arr1[i] - arr2[i], 2)` for `i` ranging over the indices
of the first array; this is that accumulation loop. -/
def sumSqDiff (arr1 arr2 : List ℚ) : ℚ :=
  (List.range arr1.length).foldl
    (fun sum i => sum + (arr1.getD i 0 - arr2.getD i 0) ^ 2) 0

/-- `euclideanDistance(arr1, arr2)` from `faceApi.ts` (lines 48-54):
the square root of the sum of squared coordinate differences, the sum
ranging over the indices of the first array. -/
noncomputable def euclideanDistance (arr1 arr2 : List ℚ) : ℝ :=
  Real.sqrt (sumSqDiff arr1 arr2)

/-- One element of the `storedDescriptors` argument of `findBestMatch`:
an employee id together with the list of stored descriptors. -/
structure StoredFace where
  employeeId : String
  descriptors : List (List ℚ)
deriving DecidableEq

/-- The result record `{ employeeId, distance }` of `findBestMatch`. -/
structure MatchResult where
  employeeId : String
  distance : ℝ

/-- `findBestMatch(descriptor, storedDescriptors)` from `faceApi.ts`
(lines 56-76): fold over every stored descriptor of every employee,
replacing the running best only when the newly computed distance is
strictly smaller (`!bestMatch || distance < bestMatch.distance`). -/
noncomputable def findBestMatch (descriptor : List ℚ)
    (storedDescriptors : List StoredFace) : Option MatchResult :=
  storedDescriptors.foldl
    (fun bestMatch stored =>
      stored.descriptors.foldl
        (fun bestMatch storedDesc =>
          let distance := euclideanDistance descriptor storedDesc
          match bestMatch with
          | none => some { employeeId := stored.employeeId, distance := distance }
          | some b =>
              if distance < b.distance then
                some { employeeId := stored.employeeId, distance := distance }
              else some b)
        bestMatch)
    none

/-- The flat enumeration of all `(identity, embedding)` pairs of a
reference set, in the order `findBestMatch` visits them: outer list
order, then descriptor order within one identity. -/
def allPairs (storedDescriptors : List StoredFace) : List (String × List ℚ) :=
  storedDescriptors.flatMap
    (fun stored => stored.descriptors.map (fun d => (stored.employeeId, d)))

/-- Computable mirror of `MatchResult` carrying the squared distance. -/
structure MatchResultSq where
  employeeId : String
  distSq : ℚ
deriving DecidableEq

/-- One step of the `findBestMatch` fold, at squared-distance level. -/
def stepSq (descriptor : List ℚ) (best : Option MatchResultSq)
    (p : String × List ℚ) : Option MatchResultSq :=
  let d := sumSqDiff descriptor p.2
  match best with
  | none => some { employeeId := p.1, distSq := d }
  | some b =>
      if d < b.distSq then some { employeeId := p.1, distSq := d }
      else some b

/-- Computable mirror of `findBestMatch`, comparing squared distances
(the square root is strictly monotone on the nonnegative sums of
squares, so the comparisons agree with the source's). -/
def findBestMatchSq (descriptor : List ℚ)
    (storedDescriptors : List StoredFace) : Option MatchResultSq :=
  (allPairs storedDescriptors).foldl (stepSq descriptor) none

/-- Interpret a squared-distance result as the source's result. -/
noncomputable def toMatchResult (m : MatchResultSq) : MatchResult :=
  { employeeId := m.employeeId, distance := Real.sqrt m.distSq }

lemma foldl_add_map {α : Type} (f : α → ℚ) (l : List α) (c : ℚ) :
    l.foldl (fun s x => s + f x) c = c + (l.map f).sum := by
  induction l generalizing c with
  | nil => simp
  | cons x xs ih => simp [List.foldl_cons, ih, add_assoc]

lemma sumSqDiff_eq_sum (arr1 arr2 : List ℚ) :
    sumSqDiff arr1 arr2 =
      ((List.range arr1.length).map
        (fun i => (arr1.getD i 0 - arr2.getD i 0) ^ 2)).sum := by
  unfold sumSqDiff
  rw [foldl_add_map]
  simp

lemma sumSqDiff_nonneg (arr1 arr2 : List ℚ) : 0 ≤ sumSqDiff arr1 arr2 := by
  rw [sumSqDiff_eq_sum]
  apply List.sum_nonneg
  intro x hx
  simp only [List.mem_map] at hx
  obtain ⟨i, _, rfl⟩ := hx
  positivity

lemma sumSqDiff_self (arr1 : List ℚ) : sumSqDiff arr1 arr1 = 0 := by
  rw [sumSqDiff_eq_sum]
  apply List.sum_eq_zero
  intro x hx
  simp only [List.mem_map] at hx
  obtain ⟨i, _, rfl⟩ := hx
  ring

lemma sumSqDiff_comm (arr1 arr2 : List ℚ) (h : arr1.length = arr2.length) :
    sumSqDiff arr1 arr2 = sumSqDiff arr2 arr1 := by
  rw [sumSqDiff_eq_sum, sumSqDiff_eq_sum, h]
  apply congrArg
  apply List.map_congr_left
  intro i _
  ring

/-- One step of the `findBestMatch` fold at real-distance level, over a
flattened `(identity, embedding)` pair. -/
noncomputable def stepReal (descriptor : List ℚ) (best : Option MatchResult)
    (p : String × List ℚ) : Option MatchResult :=
  let distance := euclideanDistance descriptor p.2
  match best with
  | none => some { employeeId := p.1, distance := distance }
  | some b =>
      if distance < b.distance then some { employeeId := p.1, distance := distance }
      else some b

lemma foldl_flatMap {α β γ : Type} (l : List α) (g : α → List β)
    (f : γ → β → γ) (init : γ) :
    (l.flatMap g).foldl f init =
      l.foldl (fun acc a => (g a).foldl f acc) init := by
  induction l generalizing init with
  | nil => simp
  | cons x xs ih => simp [List.flatMap_cons, List.foldl_append, ih]

lemma findBestMatch_eq_foldl (descriptor : List ℚ)
    (storedDescriptors : List StoredFace) :
    findBestMatch descriptor storedDescriptors =
      (allPairs storedDescriptors).foldl (stepReal descriptor) none := by
  unfold findBestMatch allPairs
  rw [foldl_flatMap]
  congr 1
  funext acc stored
  rw [List.foldl_map]
  rfl

lemma stepReal_map (descriptor : List ℚ) (b : Option MatchResultSq)
    (p : String × List ℚ) :
    stepReal descriptor (b.map toMatchResult) p =
      (stepSq descriptor b p).map toMatchResult := by
  cases b with
  | none => rfl
  | some m =>
      have hiff : euclideanDistance descriptor p.2 < (toMatchResult m).distance ↔
          sumSqDiff descriptor p.2 < m.distSq := by
        unfold euclideanDistance toMatchResult
        rw [Real.sqrt_lt_sqrt_iff
          (by exact_mod_cast sumSqDiff_nonneg descriptor p.2)]
        exact Rat.cast_lt
      show (if euclideanDistance descriptor p.2 < (toMatchResult m).distance then
              some { employeeId := p.1,
                     distance := euclideanDistance descriptor p.2 }
            else some (toMatchResult m)) =
          Option.map toMatchResult
            (if sumSqDiff descriptor p.2 < m.distSq then
              some { employeeId := p.1, distSq := sumSqDiff descriptor p.2 }
            else some m)
      by_cases h : sumSqDiff descriptor p.2 < m.distSq
      · rw [if_pos h, if_pos (hiff.2 h)]
        rfl
      · rw [if_neg h, if_neg (fun hc => h (hiff.1 hc))]
        rfl

lemma foldl_stepReal_map (descriptor : List ℚ) (ps : List (String × List ℚ))
    (b : Option MatchResultSq) :
    ps.foldl (stepReal descriptor) (b.map toMatchResult) =
      (ps.foldl (stepSq descriptor) b).map toMatchResult := by
  induction ps generalizing b with
  | nil => rfl
  | cons p ps ih =>
      rw [List.foldl_cons, List.foldl_cons, stepReal_map, ih]

/-- `findBestMatch` is the square-root image of its computable
squared-distance mirror. -/
lemma findBestMatch_eq_sq (descriptor : List ℚ)
    (storedDescriptors : List StoredFace) :
    findBestMatch descriptor storedDescriptors =
      (findBestMatchSq descriptor storedDescriptors).map toMatchResult := by
  rw [findBestMatch_eq_foldl]
  rw [show (none : Option MatchResult) = Option.map toMatchResult none from rfl]
  rw [foldl_stepReal_map]
  rfl

/-- The body of the replace-on-strictly-smaller update, once the running
best exists. -/
def pickBetter (descriptor : List ℚ) (b : MatchResultSq)
    (p : String × List ℚ) : MatchResultSq :=
  if sumSqDiff descriptor p.2 < b.distSq then
    { employeeId := p.1, distSq := sumSqDiff descriptor p.2 }
  else b

lemma foldl_stepSq_some (descriptor : List ℚ) (ps : List (String × List ℚ))
    (b : MatchResultSq) :
    ps.foldl (stepSq descriptor) (some b) =
      some (ps.foldl (pickBetter descriptor) b) := by
  induction ps generalizing b with
  | nil => rfl
  | cons p ps ih =>
      rw [List.foldl_cons, List.foldl_cons]
      by_cases h : sumSqDiff descriptor p.2 < b.distSq
      · simp only [stepSq, pickBetter, h, if_pos]
        exact ih _
      · simp only [stepSq, pickBetter, h, if_neg, not_false_iff]
        exact ih _

lemma foldl_pickBetter_le (descriptor : List ℚ) (ps : List (String × List ℚ))
    (b : MatchResultSq) :
    (ps.foldl (pickBetter descriptor) b).distSq ≤ b.distSq ∧
      ∀ p ∈ ps, (ps.foldl (pickBetter descriptor) b).distSq ≤
        sumSqDiff descriptor p.2 := by
  induction ps generalizing b with
  | nil => exact ⟨le_refl _, by simp⟩
  | cons p ps ih =>
      rw [List.foldl_cons]
      have hstep : (pickBetter descriptor b p).distSq ≤ b.distSq ∧
          (pickBetter descriptor b p).distSq ≤ sumSqDiff descriptor p.2 := by
        unfold pickBetter
        by_cases h : sumSqDiff descriptor p.2 < b.distSq
        · simp [h, le_of_lt h]
        · simp [h, le_of_not_lt h]
      refine ⟨le_trans (ih (pickBetter descriptor b p)).1 hstep.1, ?_⟩
      intro q hq
      rcases List.mem_cons.1 hq with hq | hq
      · rw [hq]
        exact le_trans (ih (pickBetter descriptor b p)).1 hstep.2
      · exact (ih (pickBetter descriptor b p)).2 q hq

lemma foldl_pickBetter_split (descriptor : List ℚ)
    (ps : List (String × List ℚ)) (b : MatchResultSq) :
    ps.foldl (pickBetter descriptor) b = b ∨
      ∃ l1 p l2, ps = l1 ++ p :: l2 ∧
        ps.foldl (pickBetter descriptor) b =
          { employeeId := p.1, distSq := sumSqDiff descriptor p.2 } ∧
        (ps.foldl (pickBetter descriptor) b).distSq < b.distSq ∧
        ∀ p' ∈ l1, (ps.foldl (pickBetter descriptor) b).distSq <
          sumSqDiff descriptor p'.2 := by
  induction ps generalizing b with
  | nil => exact Or.inl rfl
  | cons p ps ih =>
      rw [List.foldl_cons]
      by_cases h : sumSqDiff descriptor p.2 < b.distSq
      · have hb' : pickBetter descriptor b p =
            { employeeId := p.1, distSq := sumSqDiff descriptor p.2 } := by
          unfold pickBetter; simp [h]
        rw [hb']
        rcases ih { employeeId := p.1, distSq := sumSqDiff descriptor p.2 } with heq | hsp
        · refine Or.inr ⟨[], p, ps, by simp, heq, ?_, by simp⟩
          rw [heq]; exact h
        · obtain ⟨l1, q, l2, hdec, hres, hlt, hall⟩ := hsp
          refine Or.inr ⟨p :: l1, q, l2, by rw [hdec]; rfl, hres, ?_, ?_⟩
          · exact lt_trans hlt h
          · intro p' hp'
            rcases List.mem_cons.1 hp' with hp' | hp'
            · subst hp'; exact hlt
            · exact hall p' hp'
      · have hb' : pickBetter descriptor b p = b := by
          unfold pickBetter; simp [h]
        rw [hb']
        rcases ih b with heq | hsp
        · exact Or.inl heq
        · obtain ⟨l1, q, l2, hdec, hres, hlt, hall⟩ := hsp
          refine Or.inr ⟨p :: l1, q, l2, by rw [hdec]; rfl, hres, hlt, ?_⟩
          intro p' hp'
          rcases List.mem_cons.1 hp' with hp' | hp'
          · subst hp'; exact lt_of_lt_of_le hlt (le_of_not_lt h)
          · exact hall p' hp'

lemma foldl_stepSq_none_eq_none_iff (descriptor : List ℚ)
    (ps : List (String × List ℚ)) :
    ps.foldl (stepSq descriptor) none = none ↔ ps = [] := by
  cases ps with
  | nil => simp
  | cons p ps =>
      rw [List.foldl_cons]
      have hstep : stepSq descriptor none p =
          some { employeeId := p.1, distSq := sumSqDiff descriptor p.2 } := rfl
      rw [hstep, foldl_stepSq_some]
      simp

lemma foldl_stepSq_none_spec (descriptor : List ℚ)
    (ps : List (String × List ℚ)) (m : MatchResultSq)
    (h : ps.foldl (stepSq descriptor) none = some m) :
    ∃ l1 p l2, ps = l1 ++ p :: l2 ∧ p.1 = m.employeeId ∧
      sumSqDiff descriptor p.2 = m.distSq ∧
      (∀ p' ∈ l1, m.distSq < sumSqDiff descriptor p'.2) ∧
      (∀ p' ∈ ps, m.distSq ≤ sumSqDiff descriptor p'.2) := by
  cases ps with
  | nil => exact absurd h (by simp)
  | cons p ps =>
      rw [List.foldl_cons] at h
      have hstep : stepSq descriptor none p =
          some { employeeId := p.1, distSq := sumSqDiff descriptor p.2 } := rfl
      rw [hstep, foldl_stepSq_some] at h
      have hm : ps.foldl (pickBetter descriptor)
          { employeeId := p.1, distSq := sumSqDiff descriptor p.2 } = m :=
        Option.some.inj h
      have hle := foldl_pickBetter_le descriptor ps
        { employeeId := p.1, distSq := sumSqDiff descriptor p.2 }
      rw [hm] at hle
      rcases foldl_pickBetter_split descriptor ps
          { employeeId := p.1, distSq := sumSqDiff descriptor p.2 } with heq | hsp
      · rw [hm] at heq
        refine ⟨[], p, ps, by simp, ?_, ?_, by simp, ?_⟩
        · rw [heq]
        · rw [heq]
        · intro p' hp'
          rcases List.mem_cons.1 hp' with hp' | hp'
          · rw [hp', heq]
          · exact hle.2 p' hp'
      · obtain ⟨l1, q, l2, hdec, hres, hlt, hall⟩ := hsp
        rw [hm] at hres hlt hall
        refine ⟨p :: l1, q, l2, by rw [hdec]; rfl, ?_, ?_, ?_, ?_⟩
        · rw [hres]
        · rw [hres]
        · intro p' hp'
          rcases List.mem_cons.1 hp' with hp' | hp'
          · rw [hp']; exact hlt
          · exact hall p' hp'
        · intro p' hp'
          rcases List.mem_cons.1 hp' with hp' | hp'
          · rw [hp']; exact le_of_lt hlt
          · exact hle.2 p' hp'

/-- Attendance status as stored by `markAttendance` ('present' | 'late'). -/
inductive Status where
  | present
  | late
deriving DecidableEq

/-- The 09:00:00.000 cutoff built by `workStartTime.setHours(9, 0, 0, 0)`,
as milliseconds since local midnight. -/
def workStartMs : ℕ := 9 * 3600 * 1000

/-- The status computation of `markAttendance` (LiveAttendance page,
lines 209-213): `now > workStartTime ? 'late' : 'present'`, with `now`
given as milliseconds since local midnight of the same day. -/
def attendanceStatus (nowMs : ℕ) : Status :=
  if workStartMs < nowMs then Status.late else Status.present

/-- One row of the external attendance store, as inserted by
`markAttendance`. -/
structure CheckInRecord where
  employee_id : String
  checkInTimeMs : ℕ
  confidence_score : ℤ
  status : Status
deriving DecidableEq

/-- The loop-relevant mutable state of the LiveAttendance page: the
`markedToday` set and the contents of the external attendance store
(most recent insert first). -/
structure AttendanceState where
  markedToday : Finset String
  records : List CheckInRecord
deriving DecidableEq

/-- `markAttendance(employee, confidence)` (LiveAttendance page, lines
205-245), with the outcome of the external insert made explicit:
on success the row is stored and `markedToday` gains the employee id;
if the insert returns an error the function throws before
`setMarkedToday`, leaving the state untouched. -/
def markAttendance (insertOk : Bool) (employeeId : String) (nowMs : ℕ)
    (confidence : ℤ) (s : AttendanceState) : AttendanceState :=
  let record : CheckInRecord :=
    { employee_id := employeeId, checkInTimeMs := nowMs,
      confidence_score := confidence, status := attendanceStatus nowMs }
  if insertOk then
    { markedToday := insert employeeId s.markedToday,
      records := record :: s.records }
  else s

/-- One recognized-and-accepted frame of the recognition loop: the
matched employee's id, the wall-clock time, the reported confidence and
the outcome of the attendance insert. -/
structure RecognizedFrame where
  employeeId : String
  timeMs : ℕ
  confidence : ℤ
  insertOk : Bool

/-- The `markedToday` guard of `detectAndMatch` (lines 185-187): the
check-in is invoked only when the employee is not already in
`markedToday`. -/
def recognitionStep (s : AttendanceState) (ev : RecognizedFrame) :
    AttendanceState :=
  if ev.employeeId ∈ s.markedToday then s
  else markAttendance ev.insertOk ev.employeeId ev.timeMs ev.confidence s

/-- The recognition loop over a sequence of recognized frames within
one day. -/
def runLoop (s : AttendanceState) (evs : List RecognizedFrame) :
    AttendanceState :=
  evs.foldl recognitionStep s

/-- Number of attendance rows stored for one employee. -/
def countRecords (employeeId : String) (s : AttendanceState) : ℕ :=
  (s.records.filter (fun r => r.employee_id = employeeId)).length

/-- `Math.round((1 - match.distance) * 100)` from `detectAndMatch`
(line 174); `round` rounds half toward positive infinity, exactly as
`Math.round` does. -/
noncomputable def confidence (distance : ℝ) : ℤ :=
  round ((1 - distance) * 100)

/-- `REQUIRED_CAPTURES` from `FaceRegistration.tsx` (line 35). -/
def REQUIRED_CAPTURES : ℕ := 5

/-- The form state of `FaceRegistration.tsx`. -/
structure FormData where
  name : String
  employeeId : String
  department : String
  email : String
  phone : String

/-- Interactions of `handleSubmit` with the external stores, in
program order. -/
inductive SubmitEffect where
  | employeeQuery (employeeId : String)
  | employeeInsert (name employeeId department : String)
  | faceEncodingSave (employeeDbId : String)
deriving DecidableEq

/-- The user-visible outcome of `handleSubmit`. -/
inductive SubmitResult where
  | insufficientCaptures
  | missingInformation
  | employeeIdExists
  | registrationFailed
  | registered
deriving DecidableEq

/-- `handleSubmit` from `FaceRegistration.tsx` (lines 197-273).  The
external employee store is modelled by the list of existing employee
ids (queried with `.eq('employee_id', ...)`), and the insert outcome by
`insertResult` (`some dbId` on success, `none` on a storage error).
The returned trace lists every store interaction the call performs. -/
def handleSubmit (capturedDescriptors : List (List ℚ)) (formData : FormData)
    (existingIds : List String) (insertResult : Option String) :
    SubmitResult × List SubmitEffect :=
  if capturedDescriptors.length < REQUIRED_CAPTURES then
    (SubmitResult.insufficientCaptures, [])
  else if formData.name = "" ∨ formData.employeeId = "" ∨
      formData.department = "" then
    (SubmitResult.missingInformation, [])
  else if formData.employeeId ∈ existingIds then
    (SubmitResult.employeeIdExists, [SubmitEffect.employeeQuery formData.employeeId])
  else
    match insertResult with
    | none =>
        (SubmitResult.registrationFailed,
          [SubmitEffect.employeeQuery formData.employeeId,
           SubmitEffect.employeeInsert formData.name formData.employeeId
             formData.department])
    | some dbId =>
        (SubmitResult.registered,
          [SubmitEffect.employeeQuery formData.employeeId,
           SubmitEffect.employeeInsert formData.name formData.employeeId
             formData.department,
           SubmitEffect.faceEncodingSave dbId])

/-- C4: every check-in emitted by `markAttendance` carries status
`present` when the check-in time is at or before the fixed 09:00 daily
cutoff and `late` when it is after the cutoff. -/
theorem markAttendance_status_cutoff (employeeId : String) (nowMs : ℕ)
    (c : ℤ) (s : AttendanceState) :
    (markAttendance true employeeId nowMs c s).records =
      { employee_id := employeeId, checkInTimeMs := nowMs,
        confidence_score := c,
        status := if nowMs ≤ workStartMs then Status.present
                  else Status.late } :: s.records := by
  by_cases h : nowMs ≤ workStartMs
  · simp [markAttendance, attendanceStatus, h, not_lt.2 h]
  · simp [markAttendance, attendanceStatus, h, not_le.1 h]

/-- C5 counterexample: a check-in at exactly 09:00:00.000 is emitted
with status `present` by the code, while the claim ("at or after the
cutoff yields late") demands `late` there. -/
theorem markAttendance_at_cutoff_counterexample :
    (markAttendance true "E1" workStartMs 95
        { markedToday := ∅, records := [] }).records =
      [{ employee_id := "E1", checkInTimeMs := workStartMs,
         confidence_score := 95, status := Status.present }] ∧
    Status.present ≠ Status.late := by
  constructor
  · decide
  · decide

/-- C5 (amended): a check-in strictly before the 09:00 cutoff yields
`present` and strictly after the cutoff yields `late`; at exactly the
cutoff the code yields `present`.  In particular 08:59:59 yields
`present` and 09:00:01 yields `late`. -/
theorem attendanceStatus_strict (t : ℕ) :
    (t < workStartMs → attendanceStatus t = Status.present) ∧
    (workStartMs < t → attendanceStatus t = Status.late) ∧
    attendanceStatus workStartMs = Status.present ∧
    attendanceStatus (8 * 3600 * 1000 + 59 * 60 * 1000 + 59 * 1000) =
      Status.present ∧
    attendanceStatus (9 * 3600 * 1000 + 1 * 1000) = Status.late := by
  refine ⟨?_, ?_, by decide, by decide, by decide⟩
  · intro h
    unfold attendanceStatus
    rw [if_neg (not_lt.2 (le_of_lt h))]
  · intro h
    unfold attendanceStatus
    rw [if_pos h]

/-- Witness for the amended C5 at concrete times. -/
theorem attendanceStatus_strict_witness :
    (0 < workStartMs ∧ attendanceStatus 0 = Status.present) ∧
    (workStartMs < workStartMs + 1 ∧
      attendanceStatus (workStartMs + 1) = Status.late) :=
  ⟨⟨by decide, (attendanceStatus_strict 0).1 (by decide)⟩,
   ⟨Nat.lt_succ_self _,
    (attendanceStatus_strict (workStartMs + 1)).2.1 (Nat.lt_succ_self _)⟩⟩

/-- C6: a failed attendance insert leaves the state (in particular the
`markedToday` set) untouched, so the identity remains eligible and a
later successful frame records the check-in; the set is extended with
the identity only on a successful insert. -/
theorem markAttendance_failure_no_update (employeeId : String) (t t' : ℕ)
    (c c' : ℤ) (s : AttendanceState) (h : employeeId ∉ s.markedToday) :
    markAttendance false employeeId t c s = s ∧
    (markAttendance true employeeId t c s).markedToday =
      insert employeeId s.markedToday ∧
    countRecords employeeId
        (runLoop s [⟨employeeId, t, c, false⟩, ⟨employeeId, t', c', true⟩]) =
      countRecords employeeId s + 1 := by
  refine ⟨rfl, by simp [markAttendance], ?_⟩
  simp [runLoop, recognitionStep, markAttendance, countRecords, h,
    List.filter_cons]

/-- Witness for C6 at a concrete state and identity. -/
theorem markAttendance_failure_no_update_witness :
    "a" ∉ (({ markedToday := ∅, records := [] } : AttendanceState)).markedToday ∧
    (markAttendance false "a" 0 1 { markedToday := ∅, records := [] } =
        { markedToday := ∅, records := [] } ∧
      (markAttendance true "a" 0 1
          { markedToday := ∅, records := [] }).markedToday =
        insert "a" (∅ : Finset String) ∧
      countRecords "a"
          (runLoop { markedToday := ∅, records := [] }
            [⟨"a", 0, 1, false⟩, ⟨"a", 7, 2, true⟩]) =
        countRecords "a" { markedToday := ∅, records := [] } + 1) :=
  ⟨by decide,
   markAttendance_failure_no_update "a" 0 7 1 2
     { markedToday := ∅, records := [] } (by decide)⟩

/-- C7: submitting with fewer captures than the quota is rejected with
the insufficient-captures error and performs no employee-store query,
no employee insert and no face-encoding save, whatever the form
contents and the external stores. -/
theorem handleSubmit_insufficient_captures
    (capturedDescriptors : List (List ℚ)) (formData : FormData)
    (existingIds : List String) (insertResult : Option String)
    (h : capturedDescriptors.length < REQUIRED_CAPTURES) :
    handleSubmit capturedDescriptors formData existingIds insertResult =
      (SubmitResult.insufficientCaptures, []) := by
  unfold handleSubmit
  rw [if_pos h]

/-- Witness for C7: four captures and a fully valid form are still
rejected without store interaction. -/
theorem handleSubmit_insufficient_captures_witness :
    ([[(1:ℚ)], [2], [3], [4]].length < REQUIRED_CAPTURES) ∧
    handleSubmit [[(1:ℚ)], [2], [3], [4]]
        { name := "John Doe", employeeId := "EMP001", department := "IT",
          email := "", phone := "" } ["EMP002"] (some "db-1") =
      (SubmitResult.insufficientCaptures, []) :=
  ⟨by decide,
   handleSubmit_insufficient_captures [[(1:ℚ)], [2], [3], [4]]
     { name := "John Doe", employeeId := "EMP001", department := "IT",
       email := "", phone := "" } ["EMP002"] (some "db-1") (by decide)⟩

/-- C8: over exact arithmetic, the distance of same-length embeddings
is symmetric, and the distance of an embedding to itself is exactly 0. -/
theorem euclideanDistance_symm_self (a b : List ℚ) (h : a.length = b.length) :
    euclideanDistance a b = euclideanDistance b a ∧
    euclideanDistance a a = 0 := by
  constructor
  · unfold euclideanDistance
    rw [sumSqDiff_comm a b h]
  · unfold euclideanDistance
    rw [sumSqDiff_self]
    simp

/-- Witness for C8 at the embeddings [1, 2] and [3, 5]. -/
theorem euclideanDistance_symm_self_witness :
    ([(1:ℚ), 2].length = [(3:ℚ), 5].length) ∧
    (euclideanDistance [(1:ℚ), 2] [3, 5] =
        euclideanDistance [3, 5] [(1:ℚ), 2] ∧
      euclideanDistance [(1:ℚ), 2] [(1:ℚ), 2] = 0) :=
  ⟨by decide, euclideanDistance_symm_self [1, 2] [3, 5] (by decide)⟩

/-- C9: the confidence reported for an accepted match is
`round((1 - distance) * 100)`; distance 0 gives confidence 100, and any
distance ≥ 1 gives a confidence ≤ 0. -/
theorem confidence_spec :
    (∀ d : ℝ, confidence d = round ((1 - d) * 100)) ∧
    confidence 0 = 100 ∧
    ∀ d : ℝ, 1 ≤ d → confidence d ≤ 0 := by
  refine ⟨fun d => rfl, ?_, ?_⟩
  · unfold confidence
    have h : ((1 : ℝ) - 0) * 100 = ((100 : ℕ) : ℝ) := by norm_num
    rw [h, round_natCast]
    norm_num
  · intro d hd
    unfold confidence
    rw [round_eq]
    have h2 : (1 - d) * 100 + 1 / 2 ≤ (1 / 2 : ℝ) := by nlinarith
    have h3 : ⌊((1 : ℝ) / 2)⌋ = 0 := by
      rw [Int.floor_eq_zero_iff]
      constructor <;> norm_num
    calc ⌊(1 - d) * 100 + 1 / 2⌋ ≤ ⌊((1 : ℝ) / 2)⌋ := Int.floor_mono h2
    _ = 0 := h3

/-- Witness for C9's distance bound at distance 2. -/
theorem confidence_spec_witness : ((1 : ℝ) ≤ 2) ∧ confidence 2 ≤ 0 :=
  ⟨by norm_num, confidence_spec.2.2 2 (by norm_num)⟩

/-- C2: `findBestMatch` returns nothing exactly when the reference set
contains no (identity, embedding) pair at all; otherwise the result's
distance is the global minimum of the Euclidean distance over every
pair, and the returned identity owns a stored embedding at exactly that
distance. -/
theorem findBestMatch_global_min (descriptor : List ℚ)
    (storedDescriptors : List StoredFace) :
    (findBestMatch descriptor storedDescriptors = none ↔
      allPairs storedDescriptors = []) ∧
    ∀ m, findBestMatch descriptor storedDescriptors = some m →
      (∃ p ∈ allPairs storedDescriptors,
        p.1 = m.employeeId ∧ euclideanDistance descriptor p.2 = m.distance) ∧
      ∀ p ∈ allPairs storedDescriptors,
        m.distance ≤ euclideanDistance descriptor p.2 := by
  constructor
  · rw [findBestMatch_eq_sq, Option.map_eq_none']
    exact foldl_stepSq_none_eq_none_iff descriptor (allPairs storedDescriptors)
  · intro m hm
    rw [findBestMatch_eq_sq] at hm
    rcases Option.map_eq_some'.1 hm with ⟨msq, hsq, rfl⟩
    obtain ⟨l1, p, l2, hdec, hid, hdist, hstrict, hmin⟩ :=
      foldl_stepSq_none_spec descriptor (allPairs storedDescriptors) msq hsq
    constructor
    · refine ⟨p, ?_, hid, ?_⟩
      · rw [hdec]
        simp
      · unfold euclideanDistance toMatchResult
        rw [hdist]
    · intro q hq
      unfold toMatchResult euclideanDistance
      apply Real.sqrt_le_sqrt
      exact_mod_cast hmin q hq

/-- Witness for C2 on a two-identity reference set. -/
theorem findBestMatch_global_min_witness :
    findBestMatch [(0:ℚ)] [⟨"a", [[3]]⟩, ⟨"b", [[1]]⟩] =
      some { employeeId := "b", distance := 1 } ∧
    (∃ p ∈ allPairs [⟨"a", [[3]]⟩, ⟨"b", [[1]]⟩],
        p.1 = ({ employeeId := "b", distance := 1 } : MatchResult).employeeId ∧
        euclideanDistance [(0:ℚ)] p.2 =
          ({ employeeId := "b", distance := 1 } : MatchResult).distance) ∧
      ∀ p ∈ allPairs [⟨"a", [[3]]⟩, ⟨"b", [[1]]⟩],
        ({ employeeId := "b", distance := 1 } : MatchResult).distance ≤
          euclideanDistance [(0:ℚ)] p.2 := by
  have hbm : findBestMatch [(0:ℚ)] [⟨"a", [[3]]⟩, ⟨"b", [[1]]⟩] =
      some { employeeId := "b", distance := 1 } := by
    rw [findBestMatch_eq_sq]
    have hsq : findBestMatchSq [(0:ℚ)] [⟨"a", [[3]]⟩, ⟨"b", [[1]]⟩] =
        some { employeeId := "b", distSq := 1 } := by
      norm_num [findBestMatchSq, allPairs, stepSq, sumSqDiff,
        List.range_succ, List.range_zero]
    rw [hsq]
    simp [toMatchResult]
  exact ⟨hbm, (findBestMatch_global_min [(0:ℚ)]
    [⟨"a", [[3]]⟩, ⟨"b", [[1]]⟩]).2 _ hbm⟩

/-- C3 counterexample: the reference set stores the exact query `[0]`
under "Y" first and under "X" second; `findBestMatch` returns identity
"Y" with distance 0, not identity "X", because ties keep the earlier
pair. -/
theorem findBestMatch_exact_query_counterexample :
    ("X", [(0:ℚ)]) ∈ allPairs [⟨"Y", [[0]]⟩, ⟨"X", [[0]]⟩] ∧
    findBestMatch [(0:ℚ)] [⟨"Y", [[0]]⟩, ⟨"X", [[0]]⟩] =
      some { employeeId := "Y", distance := 0 } ∧
    ("Y" : String) ≠ "X" := by
  refine ⟨by norm_num [allPairs], ?_, by decide⟩
  rw [findBestMatch_eq_sq]
  have hsq : findBestMatchSq [(0:ℚ)] [⟨"Y", [[0]]⟩, ⟨"X", [[0]]⟩] =
      some { employeeId := "Y", distSq := 0 } := by
    norm_num [findBestMatchSq, allPairs, stepSq, sumSqDiff,
      List.range_succ, List.range_zero]
  rw [hsq]
  simp [toMatchResult]

lemma euclideanDistance_eq_zero_iff (arr1 arr2 : List ℚ) :
    euclideanDistance arr1 arr2 = 0 ↔ sumSqDiff arr1 arr2 = 0 := by
  unfold euclideanDistance
  rw [Real.sqrt_eq_zero (by exact_mod_cast sumSqDiff_nonneg arr1 arr2)]
  exact Rat.cast_eq_zero

lemma first_sat_unique {α : Type} (P : α → Prop) :
    ∀ (l1 l1' l2 l2' : List α) (a b : α),
      l1 ++ a :: l2 = l1' ++ b :: l2' →
      (∀ x ∈ l1, ¬ P x) → (∀ x ∈ l1', ¬ P x) → P a → P b →
      l1 = l1' ∧ a = b ∧ l2 = l2' := by
  intro l1
  induction l1 with
  | nil =>
      intro l1' l2 l2' a b heq h1 h1' ha hb
      cases l1' with
      | nil =>
          rw [List.nil_append, List.nil_append] at heq
          injection heq with hab hl
          exact ⟨rfl, hab, hl⟩
      | cons c l1t =>
          rw [List.nil_append, List.cons_append] at heq
          injection heq with hac hl
          exact absurd (show P c by rw [← hac]; exact ha)
            (h1' c (List.mem_cons_self c l1t))
  | cons c l1t ih =>
      intro l1' l2 l2' a b heq h1 h1' ha hb
      cases l1' with
      | nil =>
          rw [List.nil_append, List.cons_append] at heq
          injection heq with hcb hl
          exact absurd (show P c by rw [hcb]; exact hb)
            (h1 c (List.mem_cons_self c l1t))
      | cons c' l1t' =>
          rw [List.cons_append, List.cons_append] at heq
          injection heq with hcc htl
          have h1t : ∀ x ∈ l1t, ¬ P x :=
            fun x hx => h1 x (List.mem_cons_of_mem c hx)
          have h1t' : ∀ x ∈ l1t', ¬ P x :=
            fun x hx => h1' x (List.mem_cons_of_mem c' hx)
          obtain ⟨he1, he2, he3⟩ := ih l1t' l2 l2' a b htl h1t h1t' ha hb
          exact ⟨by rw [hcc, he1], he2, he3⟩

/-- C3 (amended): whenever the reference set contains the exact query
embedding under some identity X, `findBestMatch` returns a match whose
distance is exactly 0 and whose identity owns a stored embedding at
distance 0 from the query; and for any occurrence of X's pair such
that no pair enumerated before it lies at distance 0, the returned
identity is X itself. -/
theorem findBestMatch_exact_query (descriptor : List ℚ)
    (storedDescriptors : List StoredFace) (X : String)
    (h : (X, descriptor) ∈ allPairs storedDescriptors) :
    ∃ m, findBestMatch descriptor storedDescriptors = some m ∧
      m.distance = 0 ∧
      (∃ p ∈ allPairs storedDescriptors,
        p.1 = m.employeeId ∧ euclideanDistance descriptor p.2 = 0) ∧
      ∀ u1 u2, allPairs storedDescriptors = u1 ++ (X, descriptor) :: u2 →
        (∀ p' ∈ u1, euclideanDistance descriptor p'.2 ≠ 0) →
        m.employeeId = X := by
  cases hsq : findBestMatchSq descriptor storedDescriptors with
  | none =>
      exfalso
      have hnil : allPairs storedDescriptors = [] :=
        (foldl_stepSq_none_eq_none_iff descriptor
          (allPairs storedDescriptors)).1 hsq
      rw [hnil] at h
      exact List.not_mem_nil _ h
  | some msq =>
      obtain ⟨l1, p, l2, hdec, hid, hdist, hstrict, hmin⟩ :=
        foldl_stepSq_none_spec descriptor (allPairs storedDescriptors) msq hsq
      have h0 : msq.distSq = 0 := by
        have hle : msq.distSq ≤ sumSqDiff descriptor descriptor :=
          hmin (X, descriptor) h
        rw [sumSqDiff_self] at hle
        have hge : 0 ≤ msq.distSq := by
          rw [← hdist]
          exact sumSqDiff_nonneg descriptor p.2
        exact le_antisymm hle hge
      refine ⟨toMatchResult msq, ?_, ?_, ⟨p, ?_, hid, ?_⟩, ?_⟩
      · rw [findBestMatch_eq_sq, hsq]
        rfl
      · unfold toMatchResult
        rw [h0]
        simp
      · rw [hdec]
        simp
      · unfold euclideanDistance
        rw [hdist, h0]
        simp
      · intro u1 u2 hdec2 hne
        have hZu1 : ∀ x ∈ u1, ¬ (sumSqDiff descriptor x.2 = 0) := by
          intro x hx hzx
          exact hne x hx ((euclideanDistance_eq_zero_iff descriptor x.2).2 hzx)
        have hZl1 : ∀ x ∈ l1, ¬ (sumSqDiff descriptor x.2 = 0) := by
          intro x hx
          have hlt := hstrict x hx
          rw [h0] at hlt
          exact ne_of_gt hlt
        have heq2 : u1 ++ (X, descriptor) :: u2 = l1 ++ p :: l2 :=
          hdec2.symm.trans hdec
        obtain ⟨-, hab, -⟩ :=
          first_sat_unique (fun x => sumSqDiff descriptor x.2 = 0)
            u1 l1 u2 l2 (X, descriptor) p heq2 hZu1 hZl1
            (sumSqDiff_self descriptor) (hdist.trans h0)
        show msq.employeeId = X
        rw [← hid, ← hab]

/-- Witness for the amended C3: a singleton reference set holding the
query itself. -/
theorem findBestMatch_exact_query_witness :
    (("X", [(2:ℚ)]) ∈ allPairs [⟨"X", [[2]]⟩]) ∧
    ∃ m, findBestMatch [(2:ℚ)] [⟨"X", [[2]]⟩] = some m ∧ m.distance = 0 ∧
      (∃ p ∈ allPairs [⟨"X", [[2]]⟩], p.1 = m.employeeId ∧
        euclideanDistance [(2:ℚ)] p.2 = 0) ∧
      ∀ u1 u2, allPairs [⟨"X", [[2]]⟩] = u1 ++ ("X", [(2:ℚ)]) :: u2 →
        (∀ p' ∈ u1, euclideanDistance [(2:ℚ)] p'.2 ≠ 0) →
        m.employeeId = "X" :=
  ⟨by norm_num [allPairs],
   findBestMatch_exact_query [2] [⟨"X", [[2]]⟩] "X" (by norm_num [allPairs])⟩

/-- C10: `findBestMatch` is a pure function of its two arguments, and
when several pairs attain the minimal distance the returned one is the
first in enumeration order: the result comes from a pair that every
earlier pair exceeds strictly in distance and that no pair at all
beats. -/
theorem findBestMatch_first_of_ties (descriptor : List ℚ)
    (storedDescriptors : List StoredFace) (m : MatchResult)
    (h : findBestMatch descriptor storedDescriptors = some m) :
    ∃ l1 p l2, allPairs storedDescriptors = l1 ++ p :: l2 ∧
      p.1 = m.employeeId ∧ euclideanDistance descriptor p.2 = m.distance ∧
      (∀ p' ∈ l1, m.distance < euclideanDistance descriptor p'.2) ∧
      ∀ p' ∈ allPairs storedDescriptors,
        m.distance ≤ euclideanDistance descriptor p'.2 := by
  rw [findBestMatch_eq_sq] at h
  rcases Option.map_eq_some'.1 h with ⟨msq, hsq, rfl⟩
  obtain ⟨l1, p, l2, hdec, hid, hdist, hstrict, hmin⟩ :=
    foldl_stepSq_none_spec descriptor (allPairs storedDescriptors) msq hsq
  have h0 : (0:ℝ) ≤ (msq.distSq : ℝ) := by
    have hnn := sumSqDiff_nonneg descriptor p.2
    rw [hdist] at hnn
    exact_mod_cast hnn
  refine ⟨l1, p, l2, hdec, hid, ?_, ?_, ?_⟩
  · unfold euclideanDistance toMatchResult
    rw [hdist]
  · intro p' hp'
    unfold toMatchResult euclideanDistance
    exact Real.sqrt_lt_sqrt h0 (by exact_mod_cast hstrict p' hp')
  · intro p' hp'
    unfold toMatchResult euclideanDistance
    apply Real.sqrt_le_sqrt
    exact_mod_cast hmin p' hp'

lemma countRecords_eq_zero (e : String) (s : AttendanceState)
    (hseed : ∀ r ∈ s.records, r.employee_id ∈ s.markedToday)
    (he : e ∉ s.markedToday) : countRecords e s = 0 := by
  unfold countRecords
  rw [List.length_eq_zero, List.filter_eq_nil_iff]
  intro r hr
  simp only [decide_eq_true_eq]
  intro heq
  exact he (heq ▸ hseed r hr)

/-- C1: with `markedToday` seeded to cover every stored record and the
attendance insert succeeding on every recognized frame, an identity
already in `markedToday` never gains another record, and an identity
not yet marked ends the run with exactly one record when it is
recognized at least once, and with none otherwise. -/
theorem runLoop_once_per_day (e : String) (evs : List RecognizedFrame)
    (s : AttendanceState)
    (hseed : ∀ r ∈ s.records, r.employee_id ∈ s.markedToday)
    (hok : ∀ ev ∈ evs, ev.insertOk = true) :
    countRecords e (runLoop s evs) =
      if e ∈ s.markedToday then countRecords e s
      else if evs.any (fun ev => ev.employeeId = e) then 1 else 0 := by
  induction evs generalizing s with
  | nil =>
      by_cases h : e ∈ s.markedToday
      · simp [runLoop, h]
      · simp [runLoop, h, countRecords_eq_zero e s hseed h]
  | cons ev evs ih =>
      have hok1 : ev.insertOk = true := hok ev (List.mem_cons_self ev evs)
      have hokr : ∀ x ∈ evs, x.insertOk = true :=
        fun x hx => hok x (List.mem_cons_of_mem ev hx)
      rw [show runLoop s (ev :: evs) = runLoop (recognitionStep s ev) evs from rfl]
      by_cases hmem : ev.employeeId ∈ s.markedToday
      · have hstep : recognitionStep s ev = s := by
          unfold recognitionStep
          rw [if_pos hmem]
        rw [hstep, ih s hseed hokr]
        by_cases h : e ∈ s.markedToday
        · simp [h]
        · have hne : ev.employeeId ≠ e := fun hne => h (hne ▸ hmem)
          simp [h, hne]
      · have hstep : recognitionStep s ev =
            { markedToday := insert ev.employeeId s.markedToday,
              records := ({ employee_id := ev.employeeId,
                            checkInTimeMs := ev.timeMs,
                            confidence_score := ev.confidence,
                            status := attendanceStatus ev.timeMs }
                            : CheckInRecord)
                :: s.records } := by
          unfold recognitionStep markAttendance
          rw [if_neg hmem, hok1]
          rfl
        have hseed' : ∀ r ∈ ({ employee_id := ev.employeeId,
                               checkInTimeMs := ev.timeMs,
                               confidence_score := ev.confidence,
                               status := attendanceStatus ev.timeMs }
              :: s.records : List CheckInRecord),
            r.employee_id ∈ insert ev.employeeId s.markedToday := by
          intro r hr
          rcases List.mem_cons.1 hr with hr | hr
          · rw [hr]
            exact Finset.mem_insert_self _ _
          · exact Finset.mem_insert_of_mem (hseed r hr)
        rw [hstep, ih _ hseed' hokr]
        by_cases he : e = ev.employeeId
        · have h1 : e ∈ insert ev.employeeId s.markedToday := by
            rw [he]
            exact Finset.mem_insert_self _ _
          have h2 : e ∉ s.markedToday := fun hx => hmem (he ▸ hx)
          rw [if_pos h1, if_neg h2]
          have hz : countRecords e s = 0 := countRecords_eq_zero e s hseed h2
          have hany : ((ev :: evs).any fun x => x.employeeId = e) = true := by
            simp [he]
          rw [if_pos hany]
          unfold countRecords at hz ⊢
          rw [List.length_eq_zero] at hz
          simp [List.filter_cons, ← he, hz]
        · have h1 : e ∈ insert ev.employeeId s.markedToday ↔
              e ∈ s.markedToday := by
            constructor
            · intro hx
              rcases Finset.mem_insert.1 hx with hx | hx
              · exact absurd hx he
              · exact hx
            · exact Finset.mem_insert_of_mem
          have hcount : countRecords e
              ({ markedToday := insert ev.employeeId s.markedToday,
                 records := ({ employee_id := ev.employeeId,
                               checkInTimeMs := ev.timeMs,
                               confidence_score := ev.confidence,
                               status := attendanceStatus ev.timeMs }
                               : CheckInRecord)
                   :: s.records } : AttendanceState) = countRecords e s := by
            have hne' : ¬ (ev.employeeId = e) := fun hx => he hx.symm
            simp [countRecords, List.filter_cons, hne']
          by_cases h : e ∈ s.markedToday
          · rw [if_pos (h1.2 h), if_pos h, hcount]
          · have hne : ev.employeeId ≠ e := fun hx => he hx.symm
            rw [if_neg (fun hx => h (h1.1 hx)), if_neg h]
            simp [hne]

/-- Witness for C1: an unmarked identity recognized twice with both
inserts succeeding ends with exactly one check-in record. -/
theorem runLoop_once_per_day_witness :
    (∀ r ∈ (({ markedToday := ∅, records := [] } : AttendanceState)).records,
      r.employee_id ∈
        (({ markedToday := ∅, records := [] } : AttendanceState)).markedToday) ∧
    (∀ ev ∈ [({ employeeId := "a", timeMs := 100, confidence := 90,
                insertOk := true } : RecognizedFrame),
             { employeeId := "a", timeMs := 200, confidence := 91,
               insertOk := true }], ev.insertOk = true) ∧
    countRecords "a"
        (runLoop { markedToday := ∅, records := [] }
          [{ employeeId := "a", timeMs := 100, confidence := 90,
             insertOk := true },
           { employeeId := "a", timeMs := 200, confidence := 91,
             insertOk := true }]) =
      if "a" ∈ (({ markedToday := ∅, records := [] } : AttendanceState)).markedToday
      then countRecords "a" { markedToday := ∅, records := [] }
      else if [({ employeeId := "a", timeMs := 100, confidence := 90,
                  insertOk := true } : RecognizedFrame),
               { employeeId := "a", timeMs := 200, confidence := 91,
                 insertOk := true }].any (fun ev => ev.employeeId = "a")
      then 1 else 0 :=
  ⟨by simp, by simp,
   runLoop_once_per_day "a"
     [{ employeeId := "a", timeMs := 100, confidence := 90,
        insertOk := true },
      { employeeId := "a", timeMs := 200, confidence := 91,
        insertOk := true }]
     { markedToday := ∅, records := [] } (by simp) (by simp)⟩

/-- Witness for C10: two identities at the same distance from the
query; the one enumerated first is returned. -/
theorem findBestMatch_first_of_ties_witness :
    findBestMatch [(0:ℚ)] [⟨"a", [[2]]⟩, ⟨"b", [[2]]⟩] =
      some { employeeId := "a", distance := 2 } ∧
    ∃ l1 p l2, allPairs [⟨"a", [[2]]⟩, ⟨"b", [[2]]⟩] = l1 ++ p :: l2 ∧
      p.1 = ({ employeeId := "a", distance := 2 } : MatchResult).employeeId ∧
      euclideanDistance [(0:ℚ)] p.2 =
        ({ employeeId := "a", distance := 2 } : MatchResult).distance ∧
      (∀ p' ∈ l1,
        ({ employeeId := "a", distance := 2 } : MatchResult).distance <
          euclideanDistance [(0:ℚ)] p'.2) ∧
      ∀ p' ∈ allPairs [⟨"a", [[2]]⟩, ⟨"b", [[2]]⟩],
        ({ employeeId := "a", distance := 2 } : MatchResult).distance ≤
          euclideanDistance [(0:ℚ)] p'.2 := by
  have hsqrt : Real.sqrt (4 : ℝ) = 2 := by
    rw [show (4 : ℝ) = 2 ^ 2 by norm_num]
    exact Real.sqrt_sq (by norm_num)
  have hbm : findBestMatch [(0:ℚ)] [⟨"a", [[2]]⟩, ⟨"b", [[2]]⟩] =
      some { employeeId := "a", distance := 2 } := by
    rw [findBestMatch_eq_sq]
    have hsq : findBestMatchSq [(0:ℚ)] [⟨"a", [[2]]⟩, ⟨"b", [[2]]⟩] =
        some { employeeId := "a", distSq := 4 } := by
      norm_num [findBestMatchSq, allPairs, stepSq, sumSqDiff,
        List.range_succ, List.range_zero]
    rw [hsq]
    simp [toMatchResult, hsqrt]
  exact ⟨hbm,
    findBestMatch_first_of_ties [(0:ℚ)] [⟨"a", [[2]]⟩, ⟨"b", [[2]]⟩] _ hbm⟩
